import Mathlib

/-!
Verification of the BundLink redirect core against its specification.

The development shallowly embeds the TypeScript sources:
  * `server/lib/domain.ts`   — domain pattern matching / destination validation,
  * the privacy utilities    — IP anonymization (`anonymizeIp` and helpers),
  * the storage layer        — `getDestinationUrl` routing-rule evaluation,
  * `server/middleware/tenant.ts` — the domain→tenant cache refresh.

Strings are Lean `String`s; the JavaScript string primitives used by the
sources (`split`, `trim`, `toLowerCase`, `padStart`, …) are re-implemented
below by structural recursion on the underlying character list so that every
definition is executable and kernel-reducible.
-/

set_option maxRecDepth 10000

namespace BundLink

/-! ### ASCII character primitives (JS `toLowerCase` / `toUpperCase` on ASCII) -/

/-- ASCII lower-casing of a single character, as JS `toLowerCase` acts on the
ASCII range (the only range exercised by the embedded code). -/
def lowerChar (c : Char) : Char :=
  if 65 ≤ c.toNat ∧ c.toNat ≤ 90 then Char.ofNat (c.toNat + 32) else c

/-- ASCII upper-casing of a single character. -/
def upperChar (c : Char) : Char :=
  if 97 ≤ c.toNat ∧ c.toNat ≤ 122 then Char.ofNat (c.toNat - 32) else c

theorem toNat_lowerChar (c : Char) :
    (lowerChar c).toNat = if 65 ≤ c.toNat ∧ c.toNat ≤ 90 then c.toNat + 32 else c.toNat := by
  unfold lowerChar
  split
  · next h =>
    have hv : Nat.isValidChar (c.toNat + 32) := Or.inl (by omega)
    show (Char.ofNat (c.toNat + 32)).toNat = c.toNat + 32
    unfold Char.ofNat
    rw [dif_pos hv]
    rfl
  · rfl

theorem toNat_upperChar (c : Char) :
    (upperChar c).toNat = if 97 ≤ c.toNat ∧ c.toNat ≤ 122 then c.toNat - 32 else c.toNat := by
  unfold upperChar
  split
  · next h =>
    have hv : Nat.isValidChar (c.toNat - 32) := Or.inl (by omega)
    show (Char.ofNat (c.toNat - 32)).toNat = c.toNat - 32
    unfold Char.ofNat
    rw [dif_pos hv]
    rfl
  · rfl

theorem charToNat_inj {a b : Char} (h : a.toNat = b.toNat) : a = b := by
  apply Char.ext
  exact UInt32.ext h

theorem lowerChar_idem (c : Char) : lowerChar (lowerChar c) = lowerChar c := by
  apply charToNat_inj
  have h1 := toNat_lowerChar c
  have h2 := toNat_lowerChar (lowerChar c)
  rw [h2]
  split at h1 <;> split <;> omega

theorem upperChar_congr_of_lowerChar {a b : Char} (h : lowerChar a = lowerChar b) :
    upperChar a = upperChar b := by
  apply charToNat_inj
  have ha := toNat_lowerChar a
  have hb := toNat_lowerChar b
  have ha' := toNat_upperChar a
  have hb' := toNat_upperChar b
  have h' : (lowerChar a).toNat = (lowerChar b).toNat := by rw [h]
  rw [ha, hb] at h'
  rw [ha', hb']
  split at h' <;> split at h' <;> split <;> split <;> omega

/-- Whitespace characters trimmed by JS `String.prototype.trim` in the ASCII
range: space, tab, carriage return, line feed. -/
def wsChar (c : Char) : Bool :=
  decide (c.toNat = 32 ∨ c.toNat = 9 ∨ c.toNat = 13 ∨ c.toNat = 10)

/-! ### JS string primitives on character lists -/

/-- JS `trim`: drop leading and trailing whitespace. -/
def trimL (l : List Char) : List Char :=
  ((l.dropWhile wsChar).reverse.dropWhile wsChar).reverse

/-- JS `split(sep)` for a single-character separator. -/
def splitOnCharL (sep : Char) : List Char → List (List Char)
  | [] => [[]]
  | c :: cs =>
    if c = sep then [] :: splitOnCharL sep cs
    else
      match splitOnCharL sep cs with
      | [] => [[c]]
      | g :: gs => (c :: g) :: gs

/-- JS `split("::")`: split on non-overlapping occurrences of a double colon,
scanning left to right. -/
def splitDCL : List Char → List (List Char)
  | ':' :: ':' :: cs => [] :: splitDCL cs
  | c :: cs =>
    match splitDCL cs with
    | [] => [[c]]
    | g :: gs => (c :: g) :: gs
  | [] => [[]]

/-! ### String wrappers -/

def toLowerS (s : String) : String := String.mk (s.data.map lowerChar)

def toUpperS (s : String) : String := String.mk (s.data.map upperChar)

def trimS (s : String) : String := String.mk (trimL s.data)

def startsWithS (pre s : String) : Bool := pre.data.isPrefixOf s.data

def endsWithS (suf s : String) : Bool := suf.data.isSuffixOf s.data

def dropS (n : Nat) (s : String) : String := String.mk (s.data.drop n)

def containsCharS (c : Char) (s : String) : Bool := s.data.any (fun d => d == c)

/-- JS `includes(sub)`: whether `sub` occurs as a contiguous substring. -/
def isInfixOfL (sub : List Char) : List Char → Bool
  | [] => sub.isEmpty
  | c :: cs => sub.isPrefixOf (c :: cs) || isInfixOfL sub cs

def containsSubstrS (sub s : String) : Bool := isInfixOfL sub.data s.data

def splitOnCharS (sep : Char) (s : String) : List String :=
  (splitOnCharL sep s.data).map String.mk

def splitDCS (s : String) : List String := (splitDCL s.data).map String.mk

/-- JS `Array.prototype.join(sep)`. -/
def joinSep (sep : String) : List String → String
  | [] => ""
  | [s] => s
  | s :: rest => s ++ sep ++ joinSep sep rest

/-- JS `padStart(4, "0")`. -/
def padStart4S (s : String) : String :=
  String.mk (List.replicate (4 - s.data.length) '0' ++ s.data)

/-! ### URL parsing model

The sources call the platform constructor `new URL(url)` and read
`url.hostname`.  That parser is not part of this repository, so it is
modelled here. -/

def isAlphaChar (c : Char) : Bool :=
  decide ((65 ≤ c.toNat ∧ c.toNat ≤ 90) ∨ (97 ≤ c.toNat ∧ c.toNat ≤ 122))

def isSchemeTailChar (c : Char) : Bool :=
  isAlphaChar c || decide (48 ≤ c.toNat ∧ c.toNat ≤ 57) || c == '+' || c == '-' || c == '.'

/-- Split the input at the first occurrence of `"://"`, returning the part
before and the part after; `none` when no occurrence exists. -/
def splitSchemeRest : List Char → Option (List Char × List Char)
  | [] => none
  | c :: cs =>
    if c = ':' ∧ cs.take 2 = ['/', '/'] then some ([], cs.drop 2)
    else (splitSchemeRest cs).map (fun p => (c :: p.1, p.2))

/-- Modelled from the spec: the platform WHATWG URL parser used by
`server/lib/domain.ts` via `new URL(url).hostname`, which is not part of the
repository.  The model accepts absolute hierarchical URLs
`scheme "://" [userinfo "@"] host [":" port] ["/" …]`, requires a non-empty
host, and returns the hostname lower-cased, as the platform parser does;
every other input fails to parse (`none`). -/
def parseUrlHostname (url : String) : Option String :=
  match splitSchemeRest (trimL url.data) with
  | none => none
  | some (scheme, rest) =>
    match scheme with
    | [] => none
    | c :: cs =>
      if isAlphaChar c && cs.all isSchemeTailChar then
        let authority := rest.takeWhile (fun d => !(d == '/') && !(d == '?') && !(d == '#'))
        let hostPort := (authority.reverse.takeWhile (fun d => !(d == '@'))).reverse
        let host := hostPort.takeWhile (fun d => !(d == ':'))
        if host.isEmpty then none
        else some (String.mk (host.map lowerChar))
      else none

/-! ### `server/lib/domain.ts` -/

/-- Embeds `matchesDomainPattern` (domain.ts lines 14–43): parse the URL,
lower-case the hostname, lower-case and trim the pattern; exact match first,
then the `"*."` wildcard branch (base equality or `"." ++ base` suffix). -/
def matchesDomainPattern (url pattern : String) : Bool :=
  match parseUrlHostname url with
  | none => false
  | some host =>
    let hostname := toLowerS host
    let normalizedPattern := trimS (toLowerS pattern)
    if hostname == normalizedPattern then true
    else if startsWithS "*." normalizedPattern then
      let baseDomain := dropS 2 normalizedPattern
      hostname == baseDomain || endsWithS ("." ++ baseDomain) hostname
    else false

/-- Embeds `matchesWhitelist` (domain.ts lines 48–50). -/
def matchesWhitelist (url : String) (whitelist : List String) : Bool :=
  whitelist.any (fun pattern => matchesDomainPattern url pattern)

/-- Embeds `extractHostname` (domain.ts lines 77–83). -/
def extractHostname (url : String) : Option String :=
  parseUrlHostname url

/-- Result type of `validateDestinationUrl`:
`{ allowed: true } | { allowed: false, reason: string }`. -/
inductive ValidationResult where
  | allowed : ValidationResult
  | blocked (reason : String) : ValidationResult
  deriving DecidableEq

/-- Embeds `validateDestinationUrl` (domain.ts lines 90–127): reject unparseable
URLs, allow everything in `allow` and `warn` modes, and in `block` mode reject
non-whitelisted hostnames with a reason naming the hostname. -/
def validateDestinationUrl (url : String) (whitelistMode : String)
    (whitelist : List String) : ValidationResult :=
  match parseUrlHostname url with
  | none => .blocked "Ungültige URL"
  | some _ =>
    if whitelistMode == "allow" then .allowed
    else
      let isWhitelisted := matchesWhitelist url whitelist
      if whitelistMode == "warn" then .allowed
      else if whitelistMode == "block" && !isWhitelisted then
        .blocked ("Domain \"" ++ ((extractHostname url).getD "null") ++
          "\" ist nicht in der Whitelist. Nur Links zu vertrauenswürdigen Domains sind erlaubt.")
      else .allowed

/-- The one-shot anchored protocol strip `replace(/^https?:\/\//, "")`. -/
def stripProtocol (s : String) : String :=
  if startsWithS "https://" s then dropS 8 s
  else if startsWithS "http://" s then dropS 7 s
  else s

/-- Embeds `normalizeDomainPattern` (domain.ts lines 132–142): lowercase, trim,
strip the protocol prefix, keep everything before the first `/`. -/
def normalizeDomainPattern (pattern : String) : String :=
  let normalized := trimS (toLowerS pattern)
  let normalized := stripProtocol normalized
  (splitOnCharS '/' normalized).headD ""

/-! ### Privacy utilities (`anonymizeIp` and helpers) -/

/-- Embeds `anonymizeIpv4`: split on `"."`, require 4 parts, zero the last. -/
def anonymizeIpv4 (ip : String) : Option String :=
  let parts := splitOnCharS '.' ip
  if parts.length ≠ 4 then none
  else some (joinSep "." (parts.take 3 ++ ["0"]))

/-- Embeds `expandIpv6`: expand `::` compression and pad every group to four
hex digits; `none` when the group count cannot be made 8. -/
def expandIpv6 (ip : String) : Option String :=
  if containsSubstrS "::" ip then
    let parts := splitDCS ip
    if parts.length > 2 then none
    else
      let left := if (parts.headD "") == "" then [] else splitOnCharS ':' (parts.headD "")
      let right :=
        if (parts.getD 1 "") == "" then [] else splitOnCharS ':' (parts.getD 1 "")
      if left.length + right.length > 8 then none
      else
        let missing := 8 - left.length - right.length
        let full := left ++ List.replicate missing "0000" ++ right
        some (joinSep ":" (full.map padStart4S))
  else
    let parts := splitOnCharS ':' ip
    if parts.length ≠ 8 then none
    else some (joinSep ":" (parts.map padStart4S))

/-- State of the longest-zero-run scan in `compressIpv6`:
`(longestStart, longestLength, currentStart, currentLength)` with JS `-1`
sentinels kept as `Int`. -/
def lzrLoop : List String → Int → Int × Nat × Int × Nat → Int × Nat × Int × Nat
  | [], _, st => st
  | p :: rest, i, (ls, ll, cs, cl) =>
    if p == "0" then
      if cs == -1 then lzrLoop rest (i + 1) (ls, ll, i, 1)
      else lzrLoop rest (i + 1) (ls, ll, cs, cl + 1)
    else
      if cl > ll then lzrLoop rest (i + 1) (cs, cl, -1, 0)
      else lzrLoop rest (i + 1) (ls, ll, -1, 0)

/-- Embeds `compressIpv6`: strip leading zeros per group, find the longest run
of `"0"` groups (first run on ties), and apply `::` compression when the run
length exceeds 1. -/
def compressIpv6 (ip : String) : String :=
  let parts := (splitOnCharS ':' ip).map
    (fun p =>
      let t := p.data.dropWhile (fun c => c == '0')
      String.mk (if t.isEmpty then ['0'] else t))
  let scan := lzrLoop parts 0 (-1, 0, -1, 0)
  let longestStart := if scan.2.2.2 > scan.2.1 then scan.2.2.1 else scan.1
  let longestLength := if scan.2.2.2 > scan.2.1 then scan.2.2.2 else scan.2.1
  if longestLength > 1 then
    let before := parts.take longestStart.toNat
    let after := parts.drop (longestStart.toNat + longestLength)
    if before.isEmpty && after.isEmpty then "::"
    else if before.isEmpty then "::" ++ joinSep ":" after
    else if after.isEmpty then joinSep ":" before ++ "::"
    else joinSep ":" before ++ "::" ++ joinSep ":" after
  else joinSep ":" parts

/-- Embeds `anonymizeIpv6`: expand, require 8 groups, keep the first 3 groups,
zero the last 5, re-compress. -/
def anonymizeIpv6 (ip : String) : Option String :=
  match expandIpv6 ip with
  | none => none
  | some expanded =>
    let parts := splitOnCharS ':' expanded
    if parts.length ≠ 8 then none
    else some (compressIpv6 (joinSep ":" (parts.take 3 ++ ["0", "0", "0", "0", "0"])))

/-- Embeds `anonymizeIp` (privacy utilities lines 17–46).  `ip` is
`string | undefined` (`none` = `undefined`); JS falsiness of the empty string
is modelled explicitly.  The `level` strings are those of
`PrivacySettings.ipAnonymization`: `"none" | "partial" | "full"`. -/
def anonymizeIp (ip : Option String) (level : String) : Option String :=
  match ip with
  | none => none
  | some ip =>
    if ip == "" || level == "full" then none
    else if level == "none" then some ip
    else
      let trimmedIp := trimS ip
      if startsWithS "::ffff:" trimmedIp then
        match anonymizeIpv4 (dropS 7 trimmedIp) with
        | some anonymized => some ("::ffff:" ++ anonymized)
        | none => none
      else if containsCharS '.' trimmedIp && !containsCharS ':' trimmedIp then
        anonymizeIpv4 trimmedIp
      else anonymizeIpv6 trimmedIp

/-! ### Storage layer: links, routing rules, `getDestinationUrl` -/

/-- Projection of a `links` row onto the fields `getDestinationUrl` reads. -/
structure Link where
  id : String
  destinationUrl : String
  deriving DecidableEq

/-- The structured `condition` JSON of a routing rule.  The evaluator reads the
keys `country`, `state`, `region` (geographic), `language`, `locale`
(language), and `deviceType`, `device` (device); `none` models an absent key.
JS truthiness of a present key is modelled by `condTruthy`. -/
structure RuleCondition where
  country : Option String := none
  state : Option String := none
  region : Option String := none
  language : Option String := none
  locale : Option String := none
  deviceType : Option String := none
  device : Option String := none
  deriving DecidableEq

/-- JS truthiness of an optional string condition value: present and
non-empty. -/
def condTruthy (o : Option String) : Bool := !(o.getD "" == "")

/-- Projection of a `routing_rules` row onto the fields the evaluator reads. -/
structure RoutingRule where
  linkId : String
  ruleType : String
  condition : RuleCondition
  targetUrl : String
  priority : Int
  deriving DecidableEq

/-- The request context handed to `getDestinationUrl`
(`{ country?, language?, deviceType? }`). -/
structure RouteContext where
  country : Option String := none
  language : Option String := none
  deviceType : Option String := none
  deriving DecidableEq

/-- The internal context normalization of `getDestinationUrl`: country
upper-cased, language and device type lower-cased. -/
def normalizeContext (c : RouteContext) : RouteContext :=
  { country := c.country.map toUpperS
    language := c.language.map toLowerS
    deviceType := c.deviceType.map toLowerS }

/-- One iteration of the rule `switch` in `getDestinationUrl`: whether `rule`
matches the (already normalized) context. -/
def ruleMatches (normCtx : RouteContext) (rule : RoutingRule) : Bool :=
  if rule.ruleType == "geographic" then
    if condTruthy rule.condition.country && !condTruthy rule.condition.state &&
        !condTruthy rule.condition.region then
      normCtx.country == some (toUpperS (rule.condition.country.getD ""))
    else false
  else if rule.ruleType == "language" then
    let m1 :=
      if condTruthy rule.condition.language then
        let conditionLang := toLowerS (rule.condition.language.getD "")
        normCtx.language == some conditionLang ||
          (match normCtx.language with
           | some l => startsWithS conditionLang l
           | none => false)
      else false
    if !m1 && condTruthy rule.condition.locale then
      normCtx.language == some (toLowerS (rule.condition.locale.getD ""))
    else m1
  else if rule.ruleType == "device" then
    let m1 :=
      if condTruthy rule.condition.deviceType then
        normCtx.deviceType == some (toLowerS (rule.condition.deviceType.getD ""))
      else false
    if !m1 && condTruthy rule.condition.device then
      normCtx.deviceType == some (toLowerS (rule.condition.device.getD ""))
    else m1
  else false

/-- The persistent store as `getDestinationUrl` sees it: the `links` table and
the `routing_rules` table in row-insertion order. -/
structure Store where
  links : List Link
  routingRules : List RoutingRule

/-- Stable descending insertion by `priority`: an element is placed before the
first element whose priority is **at most** its own, so equal priorities keep
their original relative order. -/
def insertRuleDesc (r : RoutingRule) : List RoutingRule → List RoutingRule
  | [] => [r]
  | x :: xs => if x.priority ≤ r.priority then r :: x :: xs else x :: insertRuleDesc r xs

/-- Stable sort by priority descending. -/
def sortRulesDesc : List RoutingRule → List RoutingRule
  | [] => []
  | r :: rs => insertRuleDesc r (sortRulesDesc rs)

/-- Embeds `getRoutingRulesByLink` (part_002 lines 370–376):
`SELECT … WHERE link_id = ? ORDER BY priority DESC` over the insertion-ordered
table, with ties kept in insertion order (stable sort). -/
def getRoutingRulesByLink (store : Store) (linkId : String) : List RoutingRule :=
  sortRulesDesc (store.routingRules.filter (fun r => r.linkId == linkId))

/-- The `for (const rule of rules)` loop body of `getDestinationUrl`: the
`targetUrl` of the first matching rule, short-circuiting. -/
def evalRules (normCtx : RouteContext) : List RoutingRule → Option String
  | [] => none
  | rule :: rest =>
    if ruleMatches normCtx rule then some rule.targetUrl else evalRules normCtx rest

/-- Embeds `getDestinationUrl` (part_002 lines 378–445): look up the link
(`throw new Error("Link not found")` when absent, modelled as `Except.error`),
fetch the rules ordered by priority, normalize the context, return the first
matching rule's `targetUrl`, else the link's own `destinationUrl`. -/
def getDestinationUrl (store : Store) (linkId : String) (context : RouteContext) :
    Except String String :=
  match store.links.find? (fun l => l.id == linkId) with
  | none => .error "Link not found"
  | some link =>
    let rules := getRoutingRulesByLink store linkId
    let normalizedContext := normalizeContext context
    match evalRules normalizedContext rules with
    | some url => .ok url
    | none => .ok link.destinationUrl

/-! ### Tenant middleware: the domain→tenant cache (`tenant.ts`) -/

/-- Projection of a `tenants` row onto what the domain cache stores. -/
structure Tenant where
  id : String
  isActive : Bool
  deriving DecidableEq

/-- The module-level mutable state of `tenant.ts`: the `domainCache` map
(modelled as the insertion-ordered association list produced by `Map.set`)
and `lastCacheRefresh`. -/
structure DomainCacheState where
  domainCache : List (String × Tenant)
  lastCacheRefresh : Int
  deriving DecidableEq

/-- Embeds `refreshDomainCache` (tenant.ts lines 33–52) as a state transition.
The single fallible operation is the awaited store read
(`CustomDomain ⋈ Tenant where isActive`), passed here as an explicit
`Except`; everything after the read is synchronous and pure.  On a read
failure the `catch` block fires **before** `domainCache.clear()` is reached:
the previous state is returned untouched and the returned flag records that
the error was reported (`console.error`); no exception propagates (the return
type is a plain pair, the function is total).  On success the cache is
replaced wholesale by the lower-cased domain keys and `lastCacheRefresh` is
set to `now`. -/
def refreshDomainCache (readResult : Except String (List (String × Tenant)))
    (now : Int) (st : DomainCacheState) : DomainCacheState × Bool :=
  match readResult with
  | .error _ => (st, true)
  | .ok domains =>
    ({ domainCache := domains.map (fun dt => (toLowerS dt.1, dt.2)),
       lastCacheRefresh := now }, false)

/-! ### General lemmas about the string primitives -/

theorem data_append (s t : String) : (s ++ t).data = s.data ++ t.data := rfl

theorem mk_data (s : String) : String.mk s.data = s := rfl

theorem lowerChar_eq_self {c : Char} (h : ¬(65 ≤ c.toNat ∧ c.toNat ≤ 90)) :
    lowerChar c = c := by
  unfold lowerChar
  exact if_neg h

theorem map_lowerChar_idem (l : List Char) :
    (l.map lowerChar).map lowerChar = l.map lowerChar := by
  rw [List.map_map]
  exact List.map_congr_left (fun c _ => lowerChar_idem c)

theorem map_upperChar_congr :
    ∀ (l₁ l₂ : List Char), l₁.map lowerChar = l₂.map lowerChar →
      l₁.map upperChar = l₂.map upperChar
  | [], [], _ => rfl
  | [], _ :: _, h => by simp at h
  | _ :: _, [], h => by simp at h
  | a :: l₁, b :: l₂, h => by
    simp only [List.map_cons, List.cons.injEq] at h ⊢
    exact ⟨upperChar_congr_of_lowerChar h.1, map_upperChar_congr l₁ l₂ h.2⟩

theorem toUpperS_congr {a b : String} (h : toLowerS a = toLowerS b) :
    toUpperS a = toUpperS b := by
  apply String.ext
  exact map_upperChar_congr a.data b.data (congrArg String.data h)

theorem wsChar_lowerChar (c : Char) : wsChar (lowerChar c) = wsChar c := by
  have h := toNat_lowerChar c
  unfold wsChar
  rw [h, decide_eq_decide]
  split <;> omega

theorem dropWhile_eq_self_of_false {p : Char → Bool} :
    ∀ {l : List Char}, (∀ c ∈ l, p c = false) → l.dropWhile p = l
  | [], _ => rfl
  | c :: _, h => by simp [List.dropWhile_cons, h c (by simp)]

theorem trimL_eq_self {l : List Char} (h : ∀ c ∈ l, wsChar c = false) : trimL l = l := by
  unfold trimL
  rw [dropWhile_eq_self_of_false h,
    dropWhile_eq_self_of_false (by intro c hc; exact h c (by simpa using hc)),
    List.reverse_reverse]

theorem trimS_eq_self {s : String} (h : ∀ c ∈ s.data, wsChar c = false) : trimS s = s :=
  String.ext (trimL_eq_self h)

theorem mem_dropWhile_of_false {p : Char → Bool} {c : Char} :
    ∀ {l : List Char}, c ∈ l → p c = false → c ∈ l.dropWhile p
  | x :: xs, hc, hp => by
    rw [List.dropWhile_cons]
    split
    · next hx =>
      rcases List.mem_cons.mp hc with rfl | hc'
      · rw [hp] at hx; exact absurd hx (by simp)
      · exact mem_dropWhile_of_false hc' hp
    · exact hc

theorem mem_trimL_of_not_ws {c : Char} {l : List Char} (hc : c ∈ l)
    (hw : wsChar c = false) : c ∈ trimL l := by
  unfold trimL
  rw [List.mem_reverse]
  exact mem_dropWhile_of_false (by rw [List.mem_reverse]; exact mem_dropWhile_of_false hc hw) hw

theorem mem_of_mem_trimL {c : Char} {l : List Char} (h : c ∈ trimL l) : c ∈ l := by
  unfold trimL at h
  rw [List.mem_reverse] at h
  have h2 := (List.dropWhile_sublist (l := (l.dropWhile wsChar).reverse) wsChar).mem h
  rw [List.mem_reverse] at h2
  exact (List.dropWhile_sublist (l := l) wsChar).mem h2

theorem splitOnCharL_ne_nil (sep : Char) (l : List Char) : splitOnCharL sep l ≠ [] := by
  induction l with
  | nil => simp [splitOnCharL]
  | cons c cs ih =>
    unfold splitOnCharL
    split
    · simp
    · cases h : splitOnCharL sep cs with
      | nil => exact absurd h ih
      | cons g gs => simp [h]

theorem splitOnCharL_no_sep {sep : Char} :
    ∀ {l : List Char}, (∀ c ∈ l, c ≠ sep) → splitOnCharL sep l = [l]
  | [], _ => rfl
  | c :: cs, h => by
    unfold splitOnCharL
    rw [if_neg (h c (by simp))]
    rw [splitOnCharL_no_sep (fun x hx => h x (by simp [hx]))]

theorem splitOnCharL_append {sep : Char} (ys : List Char) :
    ∀ {xs : List Char}, (∀ c ∈ xs, c ≠ sep) →
      splitOnCharL sep (xs ++ sep :: ys) = xs :: splitOnCharL sep ys
  | [], _ => by
    show splitOnCharL sep (sep :: ys) = [] :: splitOnCharL sep ys
    rw [splitOnCharL, if_pos rfl]
  | c :: cs, h => by
    show splitOnCharL sep (c :: (cs ++ sep :: ys)) = (c :: cs) :: splitOnCharL sep ys
    rw [splitOnCharL, if_neg (h c (by simp)),
      splitOnCharL_append ys (fun x hx => h x (by simp [hx]))]

theorem takeWhile_eq_self_of_true {p : Char → Bool} :
    ∀ {l : List Char}, (∀ c ∈ l, p c = true) → l.takeWhile p = l
  | [], _ => rfl
  | c :: _, h => by
    rw [List.takeWhile_cons, if_pos (h c (by simp))]
    rw [takeWhile_eq_self_of_true (fun x hx => h x (by simp [hx]))]

theorem splitOnCharL_headD (sep : Char) (l : List Char) :
    (splitOnCharL sep l).headD [] = l.takeWhile (fun c => !(c == sep)) := by
  induction l with
  | nil => rfl
  | cons c cs ih =>
    by_cases h : c = sep
    · subst h
      rw [splitOnCharL, if_pos rfl, List.takeWhile_cons]
      simp
    · rw [splitOnCharL, if_neg h, List.takeWhile_cons]
      cases hs : splitOnCharL sep cs with
      | nil => exact absurd hs (splitOnCharL_ne_nil sep cs)
      | cons g gs =>
        rw [hs] at ih
        simp only [List.headD_cons] at ih
        have hc : (!(c == sep)) = true := by simp [h]
        rw [if_pos hc]
        simp [ih]

/-- The normalized pattern is the `'/'`-free prefix of the lower-cased,
trimmed, protocol-stripped input. -/
theorem normalizeDomainPattern_data (p : String) :
    (normalizeDomainPattern p).data =
      (stripProtocol (trimS (toLowerS p))).data.takeWhile (fun c => !(c == '/')) := by
  unfold normalizeDomainPattern splitOnCharS
  cases hl : splitOnCharL '/' (stripProtocol (trimS (toLowerS p))).data with
  | nil => exact absurd hl (splitOnCharL_ne_nil _ _)
  | cons g gs =>
    have h := splitOnCharL_headD '/' (stripProtocol (trimS (toLowerS p))).data
    rw [hl] at h
    simp only [List.headD_cons] at h
    simp [hl, ← h]

/-! ### Claims -/

/-- C1 (counterexample): the claim "`getDestinationUrl` never raises for a
missing link" is false on the code: for a store with no links and the link id
`"missing"`, the call throws (`Except.error "Link not found"`), refuting
"for every link id that does not denote a stored link and for every context,
the call does not throw". -/
theorem C1_counterexample_missing_link_errors :
    getDestinationUrl ⟨[], []⟩ "missing" ⟨none, none, none⟩ =
      Except.error "Link not found" := rfl

/-- C1 (amended): for every link id that does not denote a stored link and for
every context, `getDestinationUrl` throws `Error("Link not found")` (modelled
as `Except.error`); callers are responsible for existence checks before
invoking it, and the route handlers do check first. -/
theorem C1_missing_link_always_errors (store : Store) (linkId : String)
    (ctx : RouteContext) (h : store.links.find? (fun l => l.id == linkId) = none) :
    getDestinationUrl store linkId ctx = Except.error "Link not found" := by
  unfold getDestinationUrl
  rw [h]

/-- C1 witness: the amended theorem applied to a concrete store that contains
a link, queried with a different id. -/
theorem C1_missing_link_always_errors_witness :
    getDestinationUrl ⟨[⟨"a", "https://a.example"⟩], []⟩ "b" ⟨none, none, none⟩ =
      Except.error "Link not found" :=
  C1_missing_link_always_errors ⟨[⟨"a", "https://a.example"⟩], []⟩ "b"
    ⟨none, none, none⟩ (by decide)

/-- C5 (counterexample): `normalizeDomainPattern` is not idempotent.  For
`"https:// x"` the protocol strip exposes a leading space, so one application
yields `" x"` while a second application trims it to `"x"`. -/
theorem C5_counterexample_not_idempotent :
    normalizeDomainPattern (normalizeDomainPattern "https:// x") ≠
      normalizeDomainPattern "https:// x" := by decide

/-- C5 (amended): a second application of `normalizeDomainPattern` exactly
trims its first result: `normalize (normalize p) = trim (normalize p)` for
every pattern `p`.  `normalize` is therefore idempotent precisely on the
patterns whose normalized form carries no surrounding whitespace — stripping
the protocol can expose leading whitespace (e.g. `"https:// x"` normalizes to
`" x"`), which a second application removes. -/
theorem C5_normalize_normalize_eq_trim_normalize (p : String) :
    normalizeDomainPattern (normalizeDomainPattern p) =
      trimS (normalizeDomainPattern p) := by
  set q := normalizeDomainPattern p with hq
  have hqdata := normalizeDomainPattern_data p
  rw [← hq] at hqdata
  -- every character of q is a fixed point of lowerChar
  have hlower : ∀ c ∈ q.data, lowerChar c = c := by
    intro c hc
    rw [hqdata] at hc
    have hc2 : c ∈ (stripProtocol (trimS (toLowerS p))).data :=
      (List.takeWhile_sublist _).mem hc
    have hc3 : c ∈ (trimS (toLowerS p)).data := by
      unfold stripProtocol at hc2
      split at hc2
      · exact (List.drop_sublist _ _).mem hc2
      · split at hc2
        · exact (List.drop_sublist _ _).mem hc2
        · exact hc2
    have hc4 : c ∈ (toLowerS p).data := mem_of_mem_trimL hc3
    have : ∃ c', c = lowerChar c' := by
      simp only [toLowerS, List.mem_map] at hc4
      obtain ⟨c', _, rfl⟩ := hc4
      exact ⟨c', rfl⟩
    obtain ⟨c', rfl⟩ := this
    exact lowerChar_idem c'
  -- q contains no '/'
  have hslash : ∀ c ∈ q.data, c ≠ '/' := by
    intro c hc
    rw [hqdata] at hc
    have := List.mem_takeWhile_imp hc
    simpa using this
  -- hence toLowerS q = q
  have h1 : toLowerS q = q := by
    apply String.ext
    show q.data.map lowerChar = q.data
    calc q.data.map lowerChar = q.data.map id := List.map_congr_left hlower
    _ = q.data := List.map_id q.data
  -- trimS q contains no '/', so the protocol strip is the identity on it
  have hslash2 : ∀ c ∈ (trimS q).data, c ≠ '/' := by
    intro c hc
    exact hslash c (mem_of_mem_trimL hc)
  have h2 : stripProtocol (trimS q) = trimS q := by
    unfold stripProtocol
    rw [if_neg, if_neg]
    · intro hpre
      have := List.isPrefixOf_iff_prefix.mp hpre
      have hmem : '/' ∈ (trimS q).data := this.sublist.mem (by decide)
      exact hslash2 '/' hmem rfl
    · intro hpre
      have := List.isPrefixOf_iff_prefix.mp hpre
      have hmem : '/' ∈ (trimS q).data := this.sublist.mem (by decide)
      exact hslash2 '/' hmem rfl
  -- and the split at '/' keeps all of it
  apply String.ext
  rw [normalizeDomainPattern_data q, h1, h2]
  exact takeWhile_eq_self_of_true (by intro c hc; simp [hslash2 c hc])

/-- C7: for every input string that reaches the IPv6 path and whose group
count after IPv6 expansion is not 8 (including expansion failure — a
malformed IPv6 address), `anonymizeIp` at level `"partial"` returns `null`.
It cannot throw: the embedding is a total function, mirroring the code, in
which every operation on this path is a pure string manipulation. -/
theorem C7_malformed_ipv6_returns_null (s : String) (h0 : s ≠ "")
    (h1 : startsWithS "::ffff:" (trimS s) = false)
    (h2 : (containsCharS '.' (trimS s) && !containsCharS ':' (trimS s)) = false)
    (h3 : match expandIpv6 (trimS s) with
          | none => True
          | some e => (splitOnCharS ':' e).length ≠ 8) :
    anonymizeIp (some s) "partial" = none := by
  rw [anonymizeIp]
  have hbeq : (s == "") = false := by
    simpa using h0
  rw [hbeq]
  simp only [Bool.false_or]
  rw [if_neg (by decide : ¬(("partial" == "full") = true))]
  rw [if_neg (by decide : ¬(("partial" == "none") = true))]
  rw [if_neg (by simp [h1]), if_neg (by simp [h2])]
  unfold anonymizeIpv6
  cases he : expandIpv6 (trimS s) with
  | none => rfl
  | some e =>
    rw [he] at h3
    have h3' : (splitOnCharS ':' e).length ≠ 8 := h3
    show (if (splitOnCharS ':' e).length ≠ 8 then (none : Option String)
          else some (compressIpv6
            (joinSep ":" (List.take 3 (splitOnCharS ':' e) ++ ["0", "0", "0", "0", "0"])))) = none
    rw [if_pos h3']

/-- C7 witness: `"abc"` fails IPv6 expansion (one group), so partial
anonymization yields `null`. -/
theorem C7_malformed_ipv6_returns_null_witness :
    anonymizeIp (some "abc") "partial" = none :=
  C7_malformed_ipv6_returns_null "abc" (by decide) (by decide) (by decide)
    (by show True; trivial)

/-- C8: if the store read during a domain-cache rebuild fails, the refresh
leaves the previous domain→tenant cache exactly as it was (the whole state,
including `lastCacheRefresh`, is returned unchanged), reports the error
(returned flag `true` models the `console.error` call), and does not
propagate the exception — the embedding returns normally on every input, as
the `try`/`catch` does.  Since the cache is replaced only by the wholesale
assignment on the success path, callers never observe a partially-rebuilt
map. -/
theorem C8_refresh_failure_preserves_cache (e : String) (now : Int)
    (st : DomainCacheState) :
    refreshDomainCache (Except.error e) now st = (st, true) := rfl

/-- C9: at level `"full"`, `anonymizeIp` returns `null` for every input,
whether absent (`none`) or any string whatsoever. -/
theorem C9_full_always_null (ip : Option String) : anonymizeIp ip "full" = none := by
  cases ip with
  | none => rfl
  | some s => simp [anonymizeIp]

/-- In `block` mode with a parseable URL, validation reduces to the whitelist
check, with the blocked reason naming the hostname. -/
theorem validate_block_eq (url : String) (wl : List String) (h : String)
    (hp : parseUrlHostname url = some h) :
    validateDestinationUrl url "block" wl =
      (if matchesWhitelist url wl then .allowed
       else .blocked ("Domain \"" ++ h ++
         "\" ist nicht in der Whitelist. Nur Links zu vertrauenswürdigen Domains sind erlaubt.")) := by
  unfold validateDestinationUrl extractHostname
  rw [hp]
  cases hW : matchesWhitelist url wl <;> simp [hW, hp]

/-- C3: `validateDestinationUrl` (1) blocks with reason `"Ungültige URL"`
exactly when the url does not parse as an absolute URL; (2) allows every
parseable url in `allow` mode and (3) in `warn` mode; (4) in `block` mode
allows a parseable url precisely when its hostname matches at least one
whitelist pattern; and (5) otherwise blocks with a human-readable reason
naming the offending hostname. -/
theorem C3_validateDestinationUrl_modes :
    (∀ url mode wl, parseUrlHostname url = none →
       validateDestinationUrl url mode wl = .blocked "Ungültige URL")
    ∧ (∀ url wl h, parseUrlHostname url = some h →
       validateDestinationUrl url "allow" wl = .allowed)
    ∧ (∀ url wl h, parseUrlHostname url = some h →
       validateDestinationUrl url "warn" wl = .allowed)
    ∧ (∀ url wl h, parseUrlHostname url = some h →
       (validateDestinationUrl url "block" wl = .allowed ↔
         ∃ p ∈ wl, matchesDomainPattern url p = true))
    ∧ (∀ url wl h, parseUrlHostname url = some h →
       (∀ p ∈ wl, matchesDomainPattern url p = false) →
       validateDestinationUrl url "block" wl =
         .blocked ("Domain \"" ++ h ++
           "\" ist nicht in der Whitelist. Nur Links zu vertrauenswürdigen Domains sind erlaubt.")) := by
  refine ⟨?_, ?_, ?_, ?_, ?_⟩
  · intro url mode wl hp
    unfold validateDestinationUrl
    rw [hp]
  · intro url wl h hp
    unfold validateDestinationUrl
    rw [hp]
    rfl
  · intro url wl h hp
    unfold validateDestinationUrl
    rw [hp]
    rfl
  · intro url wl h hp
    rw [validate_block_eq url wl h hp]
    constructor
    · intro hallowed
      by_cases hW : matchesWhitelist url wl = true
      · unfold matchesWhitelist at hW
        rw [List.any_eq_true] at hW
        exact hW
      · rw [if_neg hW] at hallowed
        exact absurd hallowed (by simp)
    · intro hex
      have hW : matchesWhitelist url wl = true := by
        unfold matchesWhitelist
        rw [List.any_eq_true]
        exact hex
      rw [if_pos hW]
  · intro url wl h hp hnone
    rw [validate_block_eq url wl h hp]
    have hW : matchesWhitelist url wl = false := by
      unfold matchesWhitelist
      rw [List.any_eq_false]
      intro p hpmem
      simp [hnone p hpmem]
    rw [hW]
    rfl

/-- C3 witness: end-to-end scenario 3 of the spec (blocked external candidate
with the reason naming `evil.example.com`), an unparseable url in `warn`
mode, and a parseable url allowed in `warn` mode. -/
theorem C3_validateDestinationUrl_modes_witness :
    validateDestinationUrl "https://evil.example.com/login" "block" ["*.bund.de"] =
      .blocked ("Domain \"" ++ "evil.example.com" ++
        "\" ist nicht in der Whitelist. Nur Links zu vertrauenswürdigen Domains sind erlaubt.")
    ∧ validateDestinationUrl "nope" "warn" ["*.bund.de"] = .blocked "Ungültige URL"
    ∧ validateDestinationUrl "https://x.bund.de/a" "warn" [] = .allowed :=
  ⟨C3_validateDestinationUrl_modes.2.2.2.2 "https://evil.example.com/login"
      ["*.bund.de"] "evil.example.com" (by decide) (by decide),
   C3_validateDestinationUrl_modes.1 "nope" "warn" ["*.bund.de"] (by decide),
   C3_validateDestinationUrl_modes.2.2.1 "https://x.bund.de/a" [] "x.bund.de" (by decide)⟩

/-- C10: `getDestinationUrl` is invariant under the letter case of the context
fields — two contexts whose `country`, `language` and `deviceType` agree up to
case (equal after lower-casing) yield the same result, because the function
normalizes the context internally (country upper-cased, language and
deviceType lower-cased) before matching. -/
theorem C10_context_case_insensitive (store : Store) (linkId : String)
    (c1 c2 : RouteContext)
    (hc : c1.country.map toLowerS = c2.country.map toLowerS)
    (hl : c1.language.map toLowerS = c2.language.map toLowerS)
    (hd : c1.deviceType.map toLowerS = c2.deviceType.map toLowerS) :
    getDestinationUrl store linkId c1 = getDestinationUrl store linkId c2 := by
  have hn : normalizeContext c1 = normalizeContext c2 := by
    unfold normalizeContext
    have hcu : c1.country.map toUpperS = c2.country.map toUpperS := by
      cases h1 : c1.country with
      | none =>
        cases h2 : c2.country with
        | none => rfl
        | some b => rw [h1, h2] at hc; simp at hc
      | some a =>
        cases h2 : c2.country with
        | none => rw [h1, h2] at hc; simp at hc
        | some b =>
          rw [h1, h2] at hc
          simp only [Option.map_some'] at hc ⊢
          exact congrArg some (toUpperS_congr (Option.some.inj hc))
    rw [hcu, hl, hd]
  unfold getDestinationUrl
  rw [hn]

/-- C10 witness: the contexts `{country: "de"}` and `{country: "DE"}` resolve
identically against a geographic rule conditioned on `DE`. -/
theorem C10_context_case_insensitive_witness :
    getDestinationUrl
        ⟨[⟨"L", "https://d.example"⟩],
         [⟨"L", "geographic", { country := some "DE" }, "https://a.example", 5⟩]⟩
        "L" ⟨some "de", none, none⟩ =
      getDestinationUrl
        ⟨[⟨"L", "https://d.example"⟩],
         [⟨"L", "geographic", { country := some "DE" }, "https://a.example", 5⟩]⟩
        "L" ⟨some "DE", none, none⟩ :=
  C10_context_case_insensitive _ "L" ⟨some "de", none, none⟩ ⟨some "DE", none, none⟩
    (by decide) (by decide) (by decide)

/-- The evaluation loop returns the `targetUrl` of the first rule (in list
order) whose condition matches, and nothing else. -/
theorem evalRules_eq_find (nc : RouteContext) (rs : List RoutingRule) :
    evalRules nc rs = (rs.find? (ruleMatches nc)).map (fun r => r.targetUrl) := by
  induction rs with
  | nil => rfl
  | cons r rest ih =>
    rw [evalRules]
    cases h : ruleMatches nc r
    · simp [List.find?_cons, h, ih]
    · simp [List.find?_cons, h]

theorem mem_insertRuleDesc {b r : RoutingRule} :
    ∀ {l : List RoutingRule}, b ∈ insertRuleDesc r l ↔ b = r ∨ b ∈ l
  | [] => by simp [insertRuleDesc]
  | x :: xs => by
    unfold insertRuleDesc
    split
    · simp [List.mem_cons]
    · rw [List.mem_cons, mem_insertRuleDesc (l := xs), List.mem_cons]
      tauto

theorem sorted_insertRuleDesc {r : RoutingRule} :
    ∀ {l : List RoutingRule}, l.Pairwise (fun a b => b.priority ≤ a.priority) →
      (insertRuleDesc r l).Pairwise (fun a b => b.priority ≤ a.priority)
  | [], _ => by simp [insertRuleDesc]
  | x :: xs, hl => by
    rw [List.pairwise_cons] at hl
    obtain ⟨hx, hxs⟩ := hl
    unfold insertRuleDesc
    split
    · next hle =>
      rw [List.pairwise_cons]
      refine ⟨?_, List.pairwise_cons.mpr ⟨hx, hxs⟩⟩
      intro b hb
      rcases List.mem_cons.mp hb with rfl | hb'
      · exact hle
      · exact le_trans (hx b hb') hle
    · next hgt =>
      rw [List.pairwise_cons]
      refine ⟨?_, sorted_insertRuleDesc hxs⟩
      intro b hb
      rcases mem_insertRuleDesc.mp hb with rfl | hb'
      · exact le_of_lt (Int.not_le.mp hgt)
      · exact hx b hb'

theorem sorted_sortRulesDesc : ∀ (l : List RoutingRule),
    (sortRulesDesc l).Pairwise (fun a b => b.priority ≤ a.priority)
  | [] => List.Pairwise.nil
  | r :: rs => by
    rw [sortRulesDesc]
    exact sorted_insertRuleDesc (sorted_sortRulesDesc rs)

/-- Inserting never reorders the elements of a fixed priority: the new rule
lands strictly before every stored rule of its own priority. -/
theorem filter_insertRuleDesc (r : RoutingRule) (p : Int) :
    ∀ (l : List RoutingRule),
      (insertRuleDesc r l).filter (fun x => x.priority == p) =
        (if r.priority == p then r :: l.filter (fun x => x.priority == p)
         else l.filter (fun x => x.priority == p))
  | [] => by
    by_cases hr : (r.priority == p) = true <;>
      simp [insertRuleDesc, List.filter_cons, hr]
  | x :: xs => by
    unfold insertRuleDesc
    split
    · next hle =>
      by_cases hr : (r.priority == p) = true <;> simp [List.filter_cons, hr]
    · next hgt =>
      by_cases hxp : (x.priority == p) = true
      · by_cases hrp : (r.priority == p) = true
        · exfalso
          have hx' : x.priority = p := by simpa using hxp
          have hr' : r.priority = p := by simpa using hrp
          exact hgt (by rw [hx', hr'])
        · simp [List.filter_cons, hxp, hrp, filter_insertRuleDesc r p xs]
      · simp [List.filter_cons, hxp, filter_insertRuleDesc r p xs]

/-- The sort is stable: restricted to any single priority, the sorted rule
list is exactly the original insertion-ordered list. -/
theorem filter_sortRulesDesc (p : Int) : ∀ (l : List RoutingRule),
    (sortRulesDesc l).filter (fun x => x.priority == p) =
      l.filter (fun x => x.priority == p)
  | [] => rfl
  | r :: rs => by
    rw [sortRulesDesc, filter_insertRuleDesc, List.filter_cons]
    by_cases hr : (r.priority == p) = true
    · rw [if_pos hr, if_pos hr, filter_sortRulesDesc p rs]
    · rw [if_neg hr, if_neg hr, filter_sortRulesDesc p rs]

/-- C2: for every stored link and context, `getDestinationUrl`
(1) returns the `targetUrl` of the first rule, in the order produced by
`getRoutingRulesByLink`, whose condition matches the normalized context, and
the link's own `destinationUrl` when no rule matches (including for the empty
context, which instantiates `ctx := ⟨none, none, none⟩`);
(2) that order is priority-descending;
(3) with ties kept in original insertion order (the rule list restricted to
any one priority equals the insertion-ordered table restricted to it); and
(4) with two matching rules of priorities 10 and 5, in either insertion
order, the priority-10 rule's `targetUrl` is returned. -/
theorem C2_getDestinationUrl_rule_evaluation (store : Store) (linkId : String)
    (ctx : RouteContext) (link : Link)
    (hlink : store.links.find? (fun l => l.id == linkId) = some link) :
    (getDestinationUrl store linkId ctx =
      .ok (match (getRoutingRulesByLink store linkId).find?
             (ruleMatches (normalizeContext ctx)) with
           | some r => r.targetUrl
           | none => link.destinationUrl))
    ∧ (getRoutingRulesByLink store linkId).Pairwise
        (fun a b => b.priority ≤ a.priority)
    ∧ (∀ p : Int,
        (getRoutingRulesByLink store linkId).filter (fun r => r.priority == p) =
          (store.routingRules.filter (fun r => r.linkId == linkId)).filter
            (fun r => r.priority == p))
    ∧ (∀ rA rB : RoutingRule, rA.priority = 10 → rB.priority = 5 →
        rA.linkId = linkId → rB.linkId = linkId →
        ruleMatches (normalizeContext ctx) rA = true →
        ruleMatches (normalizeContext ctx) rB = true →
        (store.routingRules = [rA, rB] ∨ store.routingRules = [rB, rA]) →
        getDestinationUrl store linkId ctx = .ok rA.targetUrl) := by
  refine ⟨?_, ?_, ?_, ?_⟩
  · unfold getDestinationUrl
    rw [hlink]
    show (match evalRules (normalizeContext ctx) (getRoutingRulesByLink store linkId) with
          | some url => Except.ok url
          | none => Except.ok link.destinationUrl) =
      Except.ok (match (getRoutingRulesByLink store linkId).find?
                   (ruleMatches (normalizeContext ctx)) with
                 | some r => r.targetUrl
                 | none => link.destinationUrl)
    rw [evalRules_eq_find]
    cases hf : (getRoutingRulesByLink store linkId).find?
        (ruleMatches (normalizeContext ctx)) with
    | none => rfl
    | some r => rfl
  · exact sorted_sortRulesDesc _
  · intro p
    unfold getRoutingRulesByLink
    exact filter_sortRulesDesc p _
  · intro rA rB h10 h5 hA hB hmA hmB hcases
    unfold getDestinationUrl
    rw [hlink]
    have hsorted : getRoutingRulesByLink store linkId = [rA, rB] := by
      unfold getRoutingRulesByLink
      rcases hcases with hst | hst <;> rw [hst] <;>
        simp [List.filter_cons, hA, hB, sortRulesDesc, insertRuleDesc, h5, h10]
    show (match evalRules (normalizeContext ctx) (getRoutingRulesByLink store linkId) with
          | some url => Except.ok url
          | none => Except.ok link.destinationUrl) = Except.ok rA.targetUrl
    rw [hsorted, evalRules, if_pos hmA]

/-- C2 witness: end-to-end scenario 2 of the spec — rules
`[{geographic, country=DE, priority=5, target=A}, {language, language=en,
priority=10, target=B}]` with context `{country: "DE", language: "en"}`
return `B`. -/
theorem C2_getDestinationUrl_rule_evaluation_witness :
    getDestinationUrl
      ⟨[⟨"L", "https://d.example"⟩],
       [⟨"L", "geographic", { country := some "DE" }, "https://a.example", 5⟩,
        ⟨"L", "language", { language := some "en" }, "https://b.example", 10⟩]⟩
      "L" ⟨some "DE", some "en", none⟩ = .ok "https://b.example" :=
  (C2_getDestinationUrl_rule_evaluation
      ⟨[⟨"L", "https://d.example"⟩],
       [⟨"L", "geographic", { country := some "DE" }, "https://a.example", 5⟩,
        ⟨"L", "language", { language := some "en" }, "https://b.example", 10⟩]⟩
      "L" ⟨some "DE", some "en", none⟩ ⟨"L", "https://d.example"⟩ (by decide)).2.2.2
    ⟨"L", "language", { language := some "en" }, "https://b.example", 10⟩
    ⟨"L", "geographic", { country := some "DE" }, "https://a.example", 5⟩
    rfl rfl rfl rfl (by decide) (by decide) (Or.inr rfl)

/-! ### C4: shape of partial IP anonymization -/

theorem dot_data : ("." : String).data = ['.'] := rfl

theorem dotzero_data : (".0" : String).data = ['.', '0'] := rfl

theorem zero_data : ("0" : String).data = ['0'] := rfl

theorem vsix_prefix_data :
    ("::ffff:" : String).data = [':', ':', 'f', 'f', 'f', 'f', ':'] := rfl

/-- A well-formed IPv4 octet in the sense of the partial-anonymization claim:
no separator characters and no whitespace. -/
def octetOk (t : String) : Prop :=
  ∀ ch ∈ t.data, ch ≠ '.' ∧ ch ≠ ':' ∧ wsChar ch = false

instance (t : String) : Decidable (octetOk t) := by
  unfold octetOk
  infer_instance

/-- Partial anonymization zeroes the last octet of every well-formed dotted
quad. -/
theorem anonymizeIp_partial_ipv4 (a b c d : String)
    (ha : octetOk a) (hb : octetOk b) (hc : octetOk c) (hd : octetOk d)
    (hane : a ≠ "") :
    anonymizeIp (some (a ++ "." ++ b ++ "." ++ c ++ "." ++ d)) "partial" =
      some (a ++ "." ++ b ++ "." ++ c ++ ".0") := by
  set s := a ++ "." ++ b ++ "." ++ c ++ "." ++ d with hs
  have hdata : s.data = a.data ++ '.' :: (b.data ++ '.' :: (c.data ++ '.' :: d.data)) := by
    rw [hs]
    simp [data_append, dot_data, List.append_assoc]
  have hchars : ∀ ch ∈ s.data, ch ≠ ':' ∧ wsChar ch = false := by
    intro ch hch
    rw [hdata] at hch
    simp only [List.mem_append, List.mem_cons] at hch
    rcases hch with h | h | h | h | h | h | h
    · exact ⟨(ha ch h).2.1, (ha ch h).2.2⟩
    · subst h; exact ⟨by decide, by decide⟩
    · exact ⟨(hb ch h).2.1, (hb ch h).2.2⟩
    · subst h; exact ⟨by decide, by decide⟩
    · exact ⟨(hc ch h).2.1, (hc ch h).2.2⟩
    · subst h; exact ⟨by decide, by decide⟩
    · exact ⟨(hd ch h).2.1, (hd ch h).2.2⟩
  have htrim : trimS s = s := trimS_eq_self (fun ch hch => (hchars ch hch).2)
  have hsne : s ≠ "" := by
    intro h
    have h2 : s.data = [] := by rw [h]
    rw [hdata] at h2
    simp at h2
  have hne : (s == "") = false := by simpa using hsne
  have hpre : startsWithS "::ffff:" (trimS s) = false := by
    rw [htrim]
    unfold startsWithS
    cases hbp : ("::ffff:" : String).data.isPrefixOf s.data
    · rfl
    · exfalso
      obtain ⟨t, ht⟩ := List.isPrefixOf_iff_prefix.mp hbp
      cases hal : a.data with
      | nil => exact hane (String.ext hal)
      | cons c0 rest =>
        rw [hdata, hal, vsix_prefix_data] at ht
        simp only [List.cons_append, List.cons.injEq] at ht
        have : c0 ∈ a.data := by rw [hal]; exact List.mem_cons_self _ _
        exact (ha c0 this).2.1 ht.1.symm
  have hdot : containsCharS '.' (trimS s) = true := by
    rw [htrim]
    unfold containsCharS
    rw [List.any_eq_true]
    refine ⟨'.', ?_, by decide⟩
    rw [hdata]
    simp
  have hcolon : containsCharS ':' (trimS s) = false := by
    rw [htrim]
    unfold containsCharS
    rw [List.any_eq_false]
    intro ch hch
    simp [(hchars ch hch).1]
  have hsplit : splitOnCharL '.' s.data = [a.data, b.data, c.data, d.data] := by
    rw [hdata]
    rw [splitOnCharL_append _ (fun ch hch => (ha ch hch).1),
      splitOnCharL_append _ (fun ch hch => (hb ch hch).1),
      splitOnCharL_append _ (fun ch hch => (hc ch hch).1),
      splitOnCharL_no_sep (fun ch hch => (hd ch hch).1)]
  have hv4 : anonymizeIpv4 s = some (a ++ "." ++ b ++ "." ++ c ++ ".0") := by
    unfold anonymizeIpv4 splitOnCharS
    rw [hsplit]
    simp only [List.map_cons, List.map_nil, mk_data, List.length_cons, List.length_nil]
    rw [if_neg (by norm_num)]
    apply congrArg some
    apply String.ext
    simp [joinSep, data_append, dot_data, dotzero_data, zero_data, List.append_assoc]
  rw [anonymizeIp, hne]
  simp only [Bool.false_or]
  rw [if_neg (by decide : ¬(("partial" == "full") = true))]
  rw [if_neg (by decide : ¬(("partial" == "none") = true))]
  rw [if_neg (by simp [hpre])]
  rw [if_pos (by rw [hdot, hcolon]; rfl)]
  rw [htrim]
  exact hv4

/-- Partial anonymization of an IPv4-mapped IPv6 address anonymizes the
embedded IPv4 and re-wraps the `::ffff:` prefix. -/
theorem anonymizeIp_partial_mapped (s t : String)
    (hws : ∀ ch ∈ s.data, wsChar ch = false)
    (hv4 : anonymizeIpv4 s = some t) :
    anonymizeIp (some ("::ffff:" ++ s)) "partial" = some ("::ffff:" ++ t) := by
  have hdata : ("::ffff:" ++ s).data = ("::ffff:" : String).data ++ s.data := rfl
  have hne : (("::ffff:" ++ s : String) == "") = false := by
    have : ("::ffff:" ++ s : String) ≠ "" := by
      intro h
      have h2 : ("::ffff:" ++ s : String).data = [] := by rw [h]
      rw [hdata, vsix_prefix_data] at h2
      simp at h2
    simpa using this
  have htrim : trimS ("::ffff:" ++ s) = "::ffff:" ++ s := by
    apply trimS_eq_self
    intro ch hch
    rw [hdata] at hch
    rcases List.mem_append.mp hch with h | h
    · rw [vsix_prefix_data] at h
      fin_cases h <;> decide
    · exact hws ch h
  have hpre : startsWithS "::ffff:" (trimS ("::ffff:" ++ s)) = true := by
    rw [htrim]
    unfold startsWithS
    exact List.isPrefixOf_iff_prefix.mpr ⟨s.data, rfl⟩
  have hdrop : dropS 7 (trimS ("::ffff:" ++ s)) = s := by
    rw [htrim]
    apply String.ext
    show ("::ffff:" ++ s).data.drop 7 = s.data
    rw [hdata]
    have h7 : ("::ffff:" : String).data.length = 7 := rfl
    rw [← h7, List.drop_left]
  rw [anonymizeIp, hne]
  simp only [Bool.false_or]
  rw [if_neg (by decide : ¬(("partial" == "full") = true))]
  rw [if_neg (by decide : ¬(("partial" == "none") = true))]
  rw [if_pos hpre, hdrop, hv4]

/-- C4: partial anonymization (1) zeroes the last octet of every well-formed
IPv4 `a.b.c.d`; (2) anonymizes the IPv4 embedded in an IPv4-mapped IPv6
address and re-wraps the `::ffff:` prefix; (3) maps
`2001:db8:85a3:8d3:1319:8a2e:370:7348` (expand to 8 groups, keep the first 3,
zero the last 5, re-compress) to `2001:db8:85a3::`; (4) maps `192.168.1.123`
to `192.168.1.0`; and (5) the re-compression used resolves ties between
equal-length zero runs to the first run. -/
theorem C4_anonymizeIp_partial_shape :
    (∀ a b c d : String, octetOk a → octetOk b → octetOk c → octetOk d → a ≠ "" →
      anonymizeIp (some (a ++ "." ++ b ++ "." ++ c ++ "." ++ d)) "partial" =
        some (a ++ "." ++ b ++ "." ++ c ++ ".0"))
    ∧ (∀ s t : String, (∀ ch ∈ s.data, wsChar ch = false) → anonymizeIpv4 s = some t →
        anonymizeIp (some ("::ffff:" ++ s)) "partial" = some ("::ffff:" ++ t))
    ∧ anonymizeIp (some "2001:db8:85a3:8d3:1319:8a2e:370:7348") "partial" =
        some "2001:db8:85a3::"
    ∧ anonymizeIp (some "192.168.1.123") "partial" = some "192.168.1.0"
    ∧ compressIpv6 "1:0:0:4:5:0:0:8" = "1::4:5:0:0:8" :=
  ⟨anonymizeIp_partial_ipv4, anonymizeIp_partial_mapped, by decide, by decide, by decide⟩

/-- C4 witness: the universally quantified parts applied to the concrete
addresses `192.168.1.123` and `::ffff:10.0.0.7`. -/
theorem C4_anonymizeIp_partial_shape_witness :
    anonymizeIp (some ("192" ++ "." ++ "168" ++ "." ++ "1" ++ "." ++ "123")) "partial" =
      some ("192" ++ "." ++ "168" ++ "." ++ "1" ++ ".0")
    ∧ anonymizeIp (some ("::ffff:" ++ "10.0.0.7")) "partial" =
      some ("::ffff:" ++ "10.0.0.0") :=
  ⟨C4_anonymizeIp_partial_shape.1 "192" "168" "1" "123" (by decide) (by decide)
      (by decide) (by decide) (by decide),
   C4_anonymizeIp_partial_shape.2.1 "10.0.0.7" "10.0.0.0" (by decide) (by decide)⟩

/-! ### C6: wildcard pattern matching -/

/-- Characters of a valid (already normalized) hostname: lower-case letters,
digits, dots, hyphens. -/
def isHostChar (c : Char) : Bool :=
  decide ((97 ≤ c.toNat ∧ c.toNat ≤ 122) ∨ (48 ≤ c.toNat ∧ c.toNat ≤ 57) ∨
    c.toNat = 46 ∨ c.toNat = 45)

/-- Characters of a wildcard base domain: letters of either case, digits,
dots, hyphens. -/
def isPatBaseChar (c : Char) : Bool :=
  decide ((65 ≤ c.toNat ∧ c.toNat ≤ 90) ∨ (97 ≤ c.toNat ∧ c.toNat ≤ 122) ∨
    (48 ≤ c.toNat ∧ c.toNat ≤ 57) ∨ c.toNat = 46 ∨ c.toNat = 45)

theorem toLowerS_eq_self_of_hostChars {h : String}
    (hhost : ∀ ch ∈ h.data, isHostChar ch = true) : toLowerS h = h := by
  apply String.ext
  show h.data.map lowerChar = h.data
  rw [List.map_congr_left (g := id) ?_, List.map_id]
  intro ch hch
  have hc := hhost ch hch
  unfold isHostChar at hc
  have hc2 := of_decide_eq_true hc
  exact lowerChar_eq_self (by omega)

theorem star_not_hostChar {h : String}
    (hhost : ∀ ch ∈ h.data, isHostChar ch = true) : '*' ∉ h.data := by
  intro hmem
  have := hhost '*' hmem
  exact absurd this (by decide)

/-- Lower-casing and trimming a `"*." ++ base` pattern with well-formed base
characters just lower-cases the base. -/
theorem normalized_wildcard_pattern {base : String}
    (hbase : ∀ ch ∈ base.data, isPatBaseChar ch = true) :
    trimS (toLowerS ("*." ++ base)) = "*." ++ toLowerS base := by
  apply String.ext
  show trimL (("*." ++ base).data.map lowerChar) = ("*." ++ toLowerS base).data
  have hdata : ("*." ++ base).data = '*' :: '.' :: base.data := rfl
  rw [hdata]
  simp only [List.map_cons]
  rw [show lowerChar '*' = '*' from rfl, show lowerChar '.' = '.' from rfl]
  exact trimL_eq_self (by
    intro ch hch
    rcases List.mem_cons.mp hch with rfl | hch
    · decide
    rcases List.mem_cons.mp hch with rfl | hch
    · decide
    rcases List.mem_map.mp hch with ⟨ch', hch', rfl⟩
    rw [wsChar_lowerChar ch']
    have hc := hbase ch' hch'
    unfold isPatBaseChar at hc
    have hc2 := of_decide_eq_true hc
    unfold wsChar
    simp only [decide_eq_false_iff_not]
    omega)

/-- C6: for every URL whose hostname is a valid hostname `h` and every pattern
`"*." ++ base` with well-formed base characters, `matchesDomainPattern`
returns true if and only if `h` equals the base or ends with `"." ++ base`,
comparing case-insensitively (the base is lower-cased; valid hostnames are
already lower-case); and wildcards anywhere else in the pattern are not
supported: a pattern containing `*` whose normalized form does not start with
`"*."` never matches a valid hostname. -/
theorem C6_wildcard_pattern_matching :
    (∀ url h base, parseUrlHostname url = some h →
      (∀ ch ∈ h.data, isHostChar ch = true) →
      (∀ ch ∈ base.data, isPatBaseChar ch = true) →
      (matchesDomainPattern url ("*." ++ base) = true ↔
        (h = toLowerS base ∨ endsWithS ("." ++ toLowerS base) h = true)))
    ∧ (∀ url h pattern, parseUrlHostname url = some h →
      (∀ ch ∈ h.data, isHostChar ch = true) →
      '*' ∈ pattern.data →
      startsWithS "*." (trimS (toLowerS pattern)) = false →
      matchesDomainPattern url pattern = false) := by
  constructor
  · intro url h base hp hhost hbase
    unfold matchesDomainPattern
    rw [hp]
    show (if toLowerS h == trimS (toLowerS ("*." ++ base)) then true
          else if startsWithS "*." (trimS (toLowerS ("*." ++ base))) then
            (toLowerS h == dropS 2 (trimS (toLowerS ("*." ++ base))) ||
             endsWithS ("." ++ dropS 2 (trimS (toLowerS ("*." ++ base)))) (toLowerS h))
          else false) = true ↔ _
    rw [normalized_wildcard_pattern hbase, toLowerS_eq_self_of_hostChars hhost]
    have hne : ¬((h == "*." ++ toLowerS base) = true) := by
      simp only [beq_iff_eq]
      intro he
      apply star_not_hostChar hhost
      rw [he]
      exact List.mem_cons_self _ _
    rw [if_neg hne]
    have hsw : startsWithS "*." ("*." ++ toLowerS base) = true := by
      unfold startsWithS
      exact List.isPrefixOf_iff_prefix.mpr ⟨(toLowerS base).data, rfl⟩
    rw [if_pos hsw]
    have hdrop : dropS 2 ("*." ++ toLowerS base) = toLowerS base := rfl
    rw [hdrop]
    simp [beq_iff_eq]
  · intro url h pattern hp hhost hstar hnw
    unfold matchesDomainPattern
    rw [hp]
    show (if toLowerS h == trimS (toLowerS pattern) then true
          else if startsWithS "*." (trimS (toLowerS pattern)) then
            (toLowerS h == dropS 2 (trimS (toLowerS pattern)) ||
             endsWithS ("." ++ dropS 2 (trimS (toLowerS pattern))) (toLowerS h))
          else false) = false
    rw [toLowerS_eq_self_of_hostChars hhost]
    have hstar2 : '*' ∈ (trimS (toLowerS pattern)).data := by
      apply mem_trimL_of_not_ws
      · show '*' ∈ pattern.data.map lowerChar
        have := List.mem_map_of_mem lowerChar hstar
        rwa [show lowerChar '*' = '*' from rfl] at this
      · decide
    have hne : ¬((h == trimS (toLowerS pattern)) = true) := by
      simp only [beq_iff_eq]
      intro he
      apply star_not_hostChar hhost
      rw [he]
      exact hstar2
    rw [if_neg hne, if_neg (by simp [hnw])]

/-- C6 witness: `*.Example.de` matches `sub.example.de` (case-insensitively),
and the malformed wildcard `a.*.de` matches nothing. -/
theorem C6_wildcard_pattern_matching_witness :
    matchesDomainPattern "https://sub.example.de/x" ("*." ++ "Example.de") = true
    ∧ matchesDomainPattern "https://sub.example.de/x" "a.*.de" = false :=
  ⟨(C6_wildcard_pattern_matching.1 "https://sub.example.de/x" "sub.example.de"
      "Example.de" (by decide) (by decide) (by decide)).mpr (Or.inr (by decide)),
   C6_wildcard_pattern_matching.2 "https://sub.example.de/x" "sub.example.de"
      "a.*.de" (by decide) (by decide) (by decide) (by decide)⟩

end BundLink
